import Mathlib

/-!
Verification development for the `saltybet_asyncio` repository.

The definitions below are a shallow embedding of the Python source:
- `src/saltybet_asyncio/client.py` (`SaltybetClient`): the websocket message
  handler `_on_message`, the trigger dispatchers `_trigger_betting_change`
  and `_trigger_mode_change`, the registration decorators `on_*`, the
  rate-limited fetcher `_get_html` and its `_wait_generator`, and the
  state parser `_status_to_MatchStatus`.
- `src/saltybet_asyncio/base.py` (`BasicClient._status_to_MatchStatus`) and
  `src/saltybet_asyncio/scrape.py` (`ScraperClient._get_html`,
  `_wait_generator`), which are textually the same algorithms.

Python floats are modelled as rationals, timestamps as rationals (seconds),
`pendulum` second differences as integer floors, and handler/coroutine
identities as values of an arbitrary type with decidable equality.
-/

namespace SaltybetAsyncio

/-- Modelled from the spec: the `MatchStatus` enum is imported by
`client.py`, `base.py` and `scrape.py` from a version of the `types` module
that is not present under `src/` (the `types.py` in `src/` only carries the
older `BettingStatus` without a draw member).  Constructors follow the
spec's status enum (Unknown, Open, Locked, RedWins, BlueWins, Draw) and the
constants referenced throughout `client.py`. -/
inductive MatchStatus where
  | UNKNOWN
  | OPEN
  | LOCKED
  | RED_WINS
  | BLUE_WINS
  | DRAW
deriving DecidableEq, Repr

/-- `GameMode` from `src/saltybet_asyncio/types.py` (also `enums.py`). -/
inductive GameMode where
  | UNKNOWN
  | MATCHMAKING
  | TOURNAMENT
  | EXHIBITION
deriving DecidableEq, Repr

/-- One parsed `state.json` result, as produced by
`SaltybetClient._get_state` (client.py:727-775): the fields that
`_on_message` reads. -/
structure Snapshot where
  status : MatchStatus
  mode : GameMode
  redName : String
  blueName : String
  redBets : Nat
  blueBets : Nat
deriving DecidableEq, Repr

/-- The mutable state of `SaltybetClient` that `_on_message` reads and
writes (client.py:47-54). -/
structure ClientState where
  bettingStatus : MatchStatus
  gameMode : GameMode
  redName : String
  blueName : String
  redBets : Nat
  blueBets : Nat
deriving DecidableEq, Repr

/-- `SaltybetClient.__init__` (client.py:47-54): `_betting_status` and
`_game_mode` start at the Unknown sentinels, team names empty, bets 0. -/
def initState : ClientState :=
  { bettingStatus := .UNKNOWN
    gameMode := .UNKNOWN
    redName := ""
    blueName := ""
    redBets := 0
    blueBets := 0 }

/-- `SaltybetClient._on_message` (client.py:778-800).  Updates bets and
team names from the snapshot, then fires a betting-change dispatch iff the
snapshot status differs from the stored one (storing the new status), and
independently a mode-change dispatch iff the snapshot mode differs from the
stored one.  The two returned options are the status and mode values passed
to `_trigger_betting_change` and `_trigger_mode_change`. -/
def onMessage (st : ClientState) (s : Snapshot) :
    ClientState × Option MatchStatus × Option GameMode :=
  let st1 : ClientState :=
    { st with
        redBets := s.redBets
        blueBets := s.blueBets
        redName := s.redName
        blueName := s.blueName }
  let p1 : ClientState × Option MatchStatus :=
    if s.status ≠ st1.bettingStatus then
      ({ st1 with bettingStatus := s.status }, some s.status)
    else (st1, none)
  let p2 : ClientState × Option GameMode :=
    if s.mode ≠ p1.1.gameMode then
      ({ p1.1 with gameMode := s.mode }, some s.mode)
    else (p1.1, none)
  (p2.1, p1.2, p2.2)

/-- Folding a sequence of observed snapshots through `_on_message`,
keeping only the client state. -/
def processAll (st : ClientState) (l : List Snapshot) : ClientState :=
  l.foldl (fun acc s => (onMessage acc s).1) st

/-- The status of the most recent snapshot in a list, defaulting to the
Unknown sentinel for the empty history. -/
def lastStatus (l : List Snapshot) : MatchStatus :=
  match l.getLast? with
  | none => .UNKNOWN
  | some s => s.status

/-- The mode of the most recent snapshot in a list, defaulting to the
Unknown sentinel for the empty history. -/
def lastMode (l : List Snapshot) : GameMode :=
  match l.getLast? with
  | none => .UNKNOWN
  | some s => s.mode

lemma onMessage_state_status (st : ClientState) (s : Snapshot) :
    ((onMessage st s).1).bettingStatus = s.status := by
  unfold onMessage
  by_cases h1 : s.status = st.bettingStatus <;> simp [h1] <;>
    by_cases h2 : s.mode = st.gameMode <;> simp [h2]

lemma onMessage_state_mode (st : ClientState) (s : Snapshot) :
    ((onMessage st s).1).gameMode = s.mode := by
  unfold onMessage
  by_cases h1 : s.status = st.bettingStatus <;> simp [h1] <;>
    by_cases h2 : s.mode = st.gameMode <;> simp [h2]

lemma processAll_status (l : List Snapshot) :
    ∀ st : ClientState,
      (processAll st l).bettingStatus =
        (match l.getLast? with
         | none => st.bettingStatus
         | some s => s.status) := by
  induction l with
  | nil => intro st; simp [processAll]
  | cons x xs ih =>
      intro st
      have hstep : processAll st (x :: xs) = processAll ((onMessage st x).1) xs := rfl
      rw [hstep, ih]
      cases h : xs.getLast? with
      | none =>
          have : xs = [] := by
            cases xs with
            | nil => rfl
            | cons y ys => simp [List.getLast?_cons_cons] at h
          subst this
          simp [onMessage_state_status]
      | some s =>
          have hx : (x :: xs).getLast? = some s := by
            cases xs with
            | nil => simp at h
            | cons y ys => rw [List.getLast?_cons_cons]; exact h
          simp [hx]

lemma processAll_mode (l : List Snapshot) :
    ∀ st : ClientState,
      (processAll st l).gameMode =
        (match l.getLast? with
         | none => st.gameMode
         | some s => s.mode) := by
  induction l with
  | nil => intro st; simp [processAll]
  | cons x xs ih =>
      intro st
      have hstep : processAll st (x :: xs) = processAll ((onMessage st x).1) xs := rfl
      rw [hstep, ih]
      cases h : xs.getLast? with
      | none =>
          have : xs = [] := by
            cases xs with
            | nil => rfl
            | cons y ys => simp [List.getLast?_cons_cons] at h
          subst this
          simp [onMessage_state_mode]
      | some s =>
          have hx : (x :: xs).getLast? = some s := by
            cases xs with
            | nil => simp at h
            | cons y ys => rw [List.getLast?_cons_cons]; exact h
          simp [hx]

lemma onMessage_dispatch_status (st : ClientState) (s : Snapshot) :
    ((onMessage st s).2.1).isSome ↔ s.status ≠ st.bettingStatus := by
  unfold onMessage
  by_cases h1 : s.status = st.bettingStatus <;> simp [h1]

lemma onMessage_dispatch_mode (st : ClientState) (s : Snapshot) :
    ((onMessage st s).2.2).isSome ↔ s.mode ≠ st.gameMode := by
  unfold onMessage
  by_cases h1 : s.status = st.bettingStatus <;> simp [h1] <;>
    by_cases h2 : s.mode = st.gameMode <;> simp [h2]

/-- C1: feeding any sequence of snapshots to the websocket message handler,
a status-change dispatch is produced on the next observation iff its status
differs from the immediately preceding observed status, and independently a
mode-change dispatch is produced iff its mode differs from the immediately
preceding observed mode; the stored last status and last mode are both
initialized to the Unknown sentinel at construction. -/
theorem observe_dispatch_iff_change (l : List Snapshot) (s : Snapshot) :
    (((onMessage (processAll initState l) s).2.1).isSome ↔ s.status ≠ lastStatus l)
    ∧ (((onMessage (processAll initState l) s).2.2).isSome ↔ s.mode ≠ lastMode l)
    ∧ initState.bettingStatus = .UNKNOWN ∧ initState.gameMode = .UNKNOWN := by
  refine ⟨?_, ?_, rfl, rfl⟩
  · rw [onMessage_dispatch_status, processAll_status]
    unfold lastStatus
    cases l.getLast? <;> simp [initState]
  · rw [onMessage_dispatch_mode, processAll_mode]
    unfold lastMode
    cases l.getLast? <;> simp [initState]

/-- The handler registries of `SaltybetClient.__init__` (client.py:62-71),
one ordered list per event kind; handler identities drawn from `α`. -/
structure Triggers (α : Type) where
  onBettingChange : List α
  onBettingOpen : List α
  onBettingLocked : List α
  onBettingPayout : List α
  onModeChange : List α
  onModeTournament : List α
  onModeExhibition : List α
  onModeMatchmaking : List α

/-- One invocation of a betting handler `f(match_status, red_team_name,
red_bets, blue_team_name, blue_bets)` as performed inside
`_trigger_betting_change` (client.py:802-826). -/
structure Call (α : Type) where
  handler : α
  status : MatchStatus
  redName : String
  redBets : Nat
  blueName : String
  blueBets : Nat
deriving DecidableEq, Repr

/-- Which specific handler list the `if/elif` chain of
`_trigger_betting_change` (client.py:809-826) selects for a status. -/
inductive SpecificList where
  | openL
  | lockedL
  | payoutL
  | noList
deriving DecidableEq, Repr

/-- The `if/elif` chain of `_trigger_betting_change` (client.py:809-820):
`OPEN` selects the open list, `LOCKED` the locked list, membership in
`[RED_WINS, BLUE_WINS, DRAW]` the payout list, and anything else nothing. -/
def statusSpecific (st : MatchStatus) : SpecificList :=
  if st = .OPEN then .openL
  else if st = .LOCKED then .lockedL
  else if st = .RED_WINS ∨ st = .BLUE_WINS ∨ st = .DRAW then .payoutL
  else .noList

/-- `SaltybetClient._trigger_betting_change` (client.py:802-826) as the
list of handler invocations it performs, in order: first the generic
betting-change handlers (first `asyncio.gather`, awaited to completion),
then the specific list selected by the status.  The open handlers receive
literal `0` for both bet totals (client.py:811); all other invocations
receive the stored `_red_bets` / `_blue_bets`. -/
def triggerBettingChange {α : Type} (t : Triggers α) (cs : ClientState)
    (st : MatchStatus) : List (Call α) :=
  (t.onBettingChange.map fun f =>
    ⟨f, st, cs.redName, cs.redBets, cs.blueName, cs.blueBets⟩)
  ++ match statusSpecific st with
     | .openL => t.onBettingOpen.map fun f =>
          ⟨f, st, cs.redName, 0, cs.blueName, 0⟩
     | .lockedL => t.onBettingLocked.map fun f =>
          ⟨f, st, cs.redName, cs.redBets, cs.blueName, cs.blueBets⟩
     | .payoutL => t.onBettingPayout.map fun f =>
          ⟨f, st, cs.redName, cs.redBets, cs.blueName, cs.blueBets⟩
     | .noList => []

/-- `SaltybetClient._trigger_mode_change` (client.py:828-835): generic
mode-change handlers first, then the list selected by the mode's `if/elif`
chain; each handler receives the new game mode. -/
def triggerModeChange {α : Type} (t : Triggers α) (gm : GameMode) :
    List (α × GameMode) :=
  (t.onModeChange.map fun f => (f, gm))
  ++ (if gm = .TOURNAMENT then t.onModeTournament.map fun f => (f, gm)
      else if gm = .EXHIBITION then t.onModeExhibition.map fun f => (f, gm)
      else if gm = .MATCHMAKING then t.onModeMatchmaking.map fun f => (f, gm)
      else [])

lemma map_proj_id {α : Type} (l : List α) (g : α → α) (hg : ∀ f, g f = f) :
    l.map g = l := by
  induction l with
  | nil => rfl
  | cons x xs ih => simp [hg, ih]

lemma map_proj_replicate {α β : Type} (l : List α) (g : α → β) (b : β)
    (hg : ∀ f, g f = b) : l.map g = List.replicate l.length b := by
  induction l with
  | nil => rfl
  | cons x xs ih => simp [hg, ih, List.replicate_succ]

lemma map_handler_mk {α : Type} (l : List α) (st : MatchStatus) (rn : String)
    (rb : Nat) (bn : String) (bb : Nat) :
    ((l.map fun f => (⟨f, st, rn, rb, bn, bb⟩ : Call α)).map Call.handler) = l := by
  rw [List.map_map]
  exact map_proj_id _ _ fun f => rfl

lemma map_fst_pair {α : Type} (l : List α) (gm : GameMode) :
    ((l.map fun f => (f, gm)).map Prod.fst) = l := by
  rw [List.map_map]
  exact map_proj_id _ _ fun f => rfl

/-- C5: every detected status transition runs all generic status-change
handlers first and then exactly the one specific list matching the new
status (Open the open handlers, Locked the locked handlers, each of
RedWins/BlueWins/Draw the payout handlers); analogously mode transitions
run the generic mode-change handlers before exactly one of the
tournament / exhibition / matchmaking lists. -/
theorem dispatch_generic_then_specific {α : Type} (t : Triggers α)
    (cs : ClientState) :
    ((triggerBettingChange t cs .OPEN).map Call.handler
        = t.onBettingChange ++ t.onBettingOpen)
    ∧ ((triggerBettingChange t cs .LOCKED).map Call.handler
        = t.onBettingChange ++ t.onBettingLocked)
    ∧ ((triggerBettingChange t cs .RED_WINS).map Call.handler
        = t.onBettingChange ++ t.onBettingPayout)
    ∧ ((triggerBettingChange t cs .BLUE_WINS).map Call.handler
        = t.onBettingChange ++ t.onBettingPayout)
    ∧ ((triggerBettingChange t cs .DRAW).map Call.handler
        = t.onBettingChange ++ t.onBettingPayout)
    ∧ ((triggerModeChange t .TOURNAMENT).map Prod.fst
        = t.onModeChange ++ t.onModeTournament)
    ∧ ((triggerModeChange t .EXHIBITION).map Prod.fst
        = t.onModeChange ++ t.onModeExhibition)
    ∧ ((triggerModeChange t .MATCHMAKING).map Prod.fst
        = t.onModeChange ++ t.onModeMatchmaking) := by
  refine ⟨?_, ?_, ?_, ?_, ?_, ?_, ?_, ?_⟩ <;>
    simp only [triggerBettingChange, triggerModeChange,
      show statusSpecific .OPEN = .openL from rfl,
      show statusSpecific .LOCKED = .lockedL from rfl,
      show statusSpecific .RED_WINS = .payoutL from rfl,
      show statusSpecific .BLUE_WINS = .payoutL from rfl,
      show statusSpecific .DRAW = .payoutL from rfl,
      show (GameMode.TOURNAMENT = GameMode.TOURNAMENT) = True by simp,
      show (GameMode.EXHIBITION = GameMode.TOURNAMENT) = False by simp,
      show (GameMode.EXHIBITION = GameMode.EXHIBITION) = True by simp,
      show (GameMode.MATCHMAKING = GameMode.TOURNAMENT) = False by simp,
      show (GameMode.MATCHMAKING = GameMode.EXHIBITION) = False by simp,
      show (GameMode.MATCHMAKING = GameMode.MATCHMAKING) = True by simp,
      if_true, if_false, List.map_append, map_handler_mk, map_fst_pair]

/-- C8: on a transition to Open, every open-specific handler invocation
carries bet totals hard-coded to 0 regardless of the stored totals, while
every generic status-change invocation for the same transition carries the
stored actual totals.  The open-specific invocations are exactly the
suffix of the dispatch after the generic ones. -/
theorem open_dispatch_zero_bets {α : Type} (t : Triggers α)
    (cs : ClientState) :
    (((triggerBettingChange t cs .OPEN).drop t.onBettingChange.length).map
        Call.redBets = List.replicate t.onBettingOpen.length 0)
    ∧ (((triggerBettingChange t cs .OPEN).drop t.onBettingChange.length).map
        Call.blueBets = List.replicate t.onBettingOpen.length 0)
    ∧ (((triggerBettingChange t cs .OPEN).take t.onBettingChange.length).map
        Call.redBets = List.replicate t.onBettingChange.length cs.redBets)
    ∧ (((triggerBettingChange t cs .OPEN).take t.onBettingChange.length).map
        Call.blueBets = List.replicate t.onBettingChange.length cs.blueBets) := by
  have hsplit : triggerBettingChange t cs .OPEN
      = (t.onBettingChange.map fun f =>
          (⟨f, .OPEN, cs.redName, cs.redBets, cs.blueName, cs.blueBets⟩ : Call α))
        ++ (t.onBettingOpen.map fun f =>
          (⟨f, .OPEN, cs.redName, 0, cs.blueName, 0⟩ : Call α)) := rfl
  have hd : (triggerBettingChange t cs .OPEN).drop t.onBettingChange.length
      = t.onBettingOpen.map fun f =>
          (⟨f, .OPEN, cs.redName, 0, cs.blueName, 0⟩ : Call α) := by
    rw [hsplit, List.drop_left' (by rw [List.length_map])]
  have ht : (triggerBettingChange t cs .OPEN).take t.onBettingChange.length
      = t.onBettingChange.map fun f =>
          (⟨f, .OPEN, cs.redName, cs.redBets, cs.blueName, cs.blueBets⟩ : Call α) := by
    rw [hsplit, List.take_left' (by rw [List.length_map])]
  refine ⟨?_, ?_, ?_, ?_⟩
  · rw [hd, List.map_map]
    have := map_proj_replicate (β := Nat) t.onBettingOpen
      (Call.redBets ∘ fun f => (⟨f, .OPEN, cs.redName, 0, cs.blueName, 0⟩ : Call α))
      0 fun f => rfl
    exact this
  · rw [hd, List.map_map]
    exact map_proj_replicate (β := Nat) t.onBettingOpen _ 0 fun f => rfl
  · rw [ht, List.map_map]
    exact map_proj_replicate (β := Nat) t.onBettingChange _ cs.redBets fun f => rfl
  · rw [ht, List.map_map]
    exact map_proj_replicate (β := Nat) t.onBettingChange _ cs.blueBets fun f => rfl

/-- The registration decorators `on_start` / `on_betting_change` / ...
(client.py:838-894): append the handler to the kind's list only when it is
not already present, and return the handler unchanged. -/
def register {α : Type} [DecidableEq α] (l : List α) (f : α) : List α × α :=
  (if f ∈ l then l else l ++ [f], f)

/-- The registry list after one registration call. -/
def subscribe {α : Type} [DecidableEq α] (l : List α) (f : α) : List α :=
  (register l f).1

/-- C7: registering the same handler reference twice leaves exactly one
occurrence of it in that kind's handler list (registration is idempotent
and preserves duplicate-freedom), so a subsequent dispatch of that kind
invokes the handler exactly once; each registration call returns the same
handler reference it was given. -/
theorem subscribe_idempotent_dispatch_once {α : Type} [DecidableEq α]
    (l : List α) (f : α) (cs : ClientState) (hl : l.Nodup) :
    subscribe (subscribe l f) f = subscribe l f
    ∧ (subscribe (subscribe l f) f).count f = 1
    ∧ (subscribe (subscribe l f) f).Nodup
    ∧ (register l f).2 = f
    ∧ ((triggerBettingChange
          ⟨subscribe (subscribe l f) f, [], [], [], [], [], [], []⟩ cs
          .LOCKED).map Call.handler).count f = 1 := by
  have hmem : f ∈ subscribe l f := by
    unfold subscribe register
    by_cases h : f ∈ l <;> simp [h]
  have hidem : subscribe (subscribe l f) f = subscribe l f := by
    show (if f ∈ subscribe l f then subscribe l f else subscribe l f ++ [f]) = subscribe l f
    simp [hmem]
  have hnodup : (subscribe l f).Nodup := by
    unfold subscribe register
    by_cases h : f ∈ l
    · simpa [h] using hl
    · simp only [h, if_false]
      exact hl.append (List.nodup_singleton f)
        (fun a ha hb => by
          have : a = f := by simpa using hb
          exact h (this ▸ ha))
  have hcount : (subscribe l f).count f = 1 :=
    List.count_eq_one_of_mem hnodup hmem
  refine ⟨hidem, by rw [hidem]; exact hcount, by rw [hidem]; exact hnodup,
    rfl, ?_⟩
  rw [hidem]
  have hlist : (triggerBettingChange
        (⟨subscribe l f, [], [], [], [], [], [], []⟩ : Triggers α) cs
        .LOCKED).map Call.handler = subscribe l f := by
    simp only [triggerBettingChange,
      show statusSpecific .LOCKED = .lockedL from rfl, List.map_append,
      map_handler_mk]
    simp
  rw [hlist]
  exact hcount

/-- C7 witness: the theorem applied at the empty registry over `ℕ`. -/
theorem subscribe_idempotent_dispatch_once_witness :
    subscribe (subscribe ([] : List ℕ) 0) 0 = subscribe [] 0
    ∧ (subscribe (subscribe ([] : List ℕ) 0) 0).count 0 = 1
    ∧ (subscribe (subscribe ([] : List ℕ) 0) 0).Nodup
    ∧ (register ([] : List ℕ) 0).2 = 0
    ∧ ((triggerBettingChange
          ⟨subscribe (subscribe ([] : List ℕ) 0) 0, [], [], [], [], [], [], []⟩
          initState .LOCKED).map Call.handler).count 0 = 1 :=
  subscribe_idempotent_dispatch_once [] 0 initState List.nodup_nil

/-- `_status_to_MatchStatus` (client.py:705-718, identically
base.py:287-300): the `if/elif` chain over the raw `state.json` status
string, defaulting to `UNKNOWN`. -/
def statusToMatchStatus (s : String) : MatchStatus :=
  if s = "open" then .OPEN
  else if s = "locked" then .LOCKED
  else if s = "1" then .RED_WINS
  else if s = "2" then .BLUE_WINS
  else .UNKNOWN

/-- C10: the status parser is total and never yields `DRAW`: it maps
"open" / "locked" / "1" / "2" to Open / Locked / RedWins / BlueWins and
everything else to Unknown, so a status obtained through the state-polling
parser selects the payout handler list only when it is RedWins or
BlueWins. -/
theorem status_parser_total_no_draw (s : String) :
    statusToMatchStatus "open" = .OPEN
    ∧ statusToMatchStatus "locked" = .LOCKED
    ∧ statusToMatchStatus "1" = .RED_WINS
    ∧ statusToMatchStatus "2" = .BLUE_WINS
    ∧ statusToMatchStatus s ≠ .DRAW
    ∧ (s = "open" ∨ s = "locked" ∨ s = "1" ∨ s = "2"
        ∨ statusToMatchStatus s = .UNKNOWN)
    ∧ (statusSpecific (statusToMatchStatus s) ≠ .payoutL
        ∨ statusToMatchStatus s = .RED_WINS
        ∨ statusToMatchStatus s = .BLUE_WINS) := by
  refine ⟨rfl, rfl, rfl, rfl, ?_, ?_, ?_⟩ <;>
    unfold statusToMatchStatus <;>
    by_cases h1 : s = "open" <;> by_cases h2 : s = "locked" <;>
    by_cases h3 : s = "1" <;> by_cases h4 : s = "2" <;>
    simp [h1, h2, h3, h4, statusSpecific]


/-- One `next()` step of `_wait_generator` (client.py:96-104, identically
scrape.py:50-60): with the current exponent state `n` and this call's
jitter `j = random()`, the generator computes `a = factor * 2 ** n +
random()`; when `a ≤ max_wait` it yields `a`, otherwise it yields
`max_wait`. -/
def waitValue (factor maxWait j : ℚ) (n : ℕ) : ℚ :=
  if factor * 2 ^ n + j ≤ maxWait then factor * 2 ^ n + j else maxWait

/-- The exponent state after one `next()` call of `_wait_generator`:
`n += 1` exactly when the computed value was within the cap. -/
def waitNext (factor maxWait j : ℚ) (n : ℕ) : ℕ :=
  if factor * 2 ^ n + j ≤ maxWait then n + 1 else n

/-- The exponent state of one `_wait_generator` instance before its `k`-th
`next()` call, under the per-call jitter stream `j`. -/
def waitIdx (factor maxWait : ℚ) (j : ℕ → ℚ) : ℕ → ℕ
  | 0 => 0
  | k + 1 => waitNext factor maxWait (j k) (waitIdx factor maxWait j k)

/-- The value yielded by the `k`-th `next()` call of one `_wait_generator`
instance, under the per-call jitter stream `j`. -/
def waitYield (factor maxWait : ℚ) (j : ℕ → ℚ) (k : ℕ) : ℚ :=
  waitValue factor maxWait (j k) (waitIdx factor maxWait j k)

lemma waitIdx_succ (f m : ℚ) (j : ℕ → ℚ) (k : ℕ) :
    waitIdx f m j (k + 1) = waitNext f m (j k) (waitIdx f m j k) := rfl

lemma waitValue_le_max (f m jv : ℚ) (n : ℕ) : waitValue f m jv n ≤ m := by
  unfold waitValue
  split
  · assumption
  · exact le_refl m

lemma one_le_factor_pow (f : ℚ) (hf : 1 ≤ f) (n : ℕ) : 1 ≤ f * 2 ^ n := by
  have h2 : (1 : ℚ) ≤ 2 ^ n := one_le_pow₀ (by norm_num)
  nlinarith

lemma low_waitValue (f m jv : ℚ) (n : ℕ) (hlow : f * 2 ^ n ≤ m - 1)
    (hj0 : 0 ≤ jv) (hj1 : jv < 1) :
    waitValue f m jv n = f * 2 ^ n + jv ∧ waitNext f m jv n = n + 1
    ∧ f * 2 ^ n + jv < m := by
  have ha : f * 2 ^ n + jv < m := by linarith
  have ha2 : f * 2 ^ n + jv ≤ m := le_of_lt ha
  exact ⟨by unfold waitValue; rw [if_pos ha2],
    by unfold waitNext; rw [if_pos ha2], ha⟩

lemma high_waitValue (f m jv : ℚ) (n : ℕ) (hhigh : m ≤ f * 2 ^ n)
    (hj0 : 0 ≤ jv) : waitValue f m jv n = m := by
  unfold waitValue
  split
  · linarith
  · rfl

lemma high_waitNext (f m jv : ℚ) (n : ℕ) (hf : 1 ≤ f)
    (hhigh : m ≤ f * 2 ^ n) : m ≤ f * 2 ^ waitNext f m jv n := by
  unfold waitNext
  split
  · have hp : f * 2 ^ (n + 1) = f * 2 ^ n * 2 := by rw [pow_succ]; ring
    have h1 := one_le_factor_pow f hf n
    rw [hp]
    linarith
  · exact hhigh

lemma waitIdx_eq_of_low (f m : ℚ) (j : ℕ → ℚ) (hf : 1 ≤ f)
    (hj : ∀ k, 0 ≤ j k ∧ j k < 1)
    (hstep : ∀ n : ℕ, f * 2 ^ n ≤ m - 1 ∨ m ≤ f * 2 ^ n) :
    ∀ k, f * 2 ^ waitIdx f m j k ≤ m - 1 → waitIdx f m j k = k := by
  intro k
  induction k with
  | zero => intro _; rfl
  | succ k ih =>
      intro hlow
      have hprev : f * 2 ^ waitIdx f m j k ≤ m - 1 := by
        rcases hstep (waitIdx f m j k) with h | h
        · exact h
        · have hk1 := high_waitNext f m (j k) _ hf h
          rw [← waitIdx_succ] at hk1
          linarith
      have hk := ih hprev
      have hn := (low_waitValue f m (j k) _ hprev (hj k).1 (hj k).2).2.1
      rw [waitIdx_succ, hn, hk]

lemma two_pow_big (f m : ℚ) (hf : 1 ≤ f) (k : ℕ) (hk : m ≤ (k : ℚ)) :
    m - 1 < f * 2 ^ k := by
  have h1 : ((k : ℚ)) + 1 ≤ 2 ^ k := by
    exact_mod_cast Nat.succ_le_of_lt (Nat.lt_two_pow k)
  have hp : (0 : ℚ) < 2 ^ k := by positivity
  nlinarith

/-- C4 (amended): for every factor `f ≥ 1`, cap `m ≥ f` and per-call
jitter stream in `[0,1)`, provided no term `f * 2 ^ n` of the doubling
sequence falls strictly inside the unit interval `(m - 1, m)` (which holds
for both deployed parameter pairs, factor 7 s / cap 90 s and factor 90 s /
cap 300 s), the sequence of waits yielded by `_wait_generator` is
non-decreasing, never exceeds the cap, and saturates at the cap. -/
theorem wait_sequence_monotone_capped (f m : ℚ) (j : ℕ → ℚ)
    (hf : 1 ≤ f) (hfm : f ≤ m)
    (hj : ∀ k, 0 ≤ j k ∧ j k < 1)
    (hstep : ∀ n : ℕ, f * 2 ^ n ≤ m - 1 ∨ m ≤ f * 2 ^ n) :
    (∀ k, waitYield f m j k ≤ waitYield f m j (k + 1))
    ∧ (∀ k, waitYield f m j k ≤ m)
    ∧ (∃ N : ℕ, ∀ k, N ≤ k → waitYield f m j k = m) := by
  have hyield_high : ∀ k, m ≤ f * 2 ^ waitIdx f m j k → waitYield f m j k = m :=
    fun k h => high_waitValue f m (j k) _ h (hj k).1
  refine ⟨?_, fun k => waitValue_le_max f m (j k) _, ?_⟩
  · intro k
    rcases hstep (waitIdx f m j k) with h | h
    · obtain ⟨hv, hn, hlt⟩ :=
        low_waitValue f m (j k) (waitIdx f m j k) h (hj k).1 (hj k).2
      have hidx : waitIdx f m j (k + 1) = waitIdx f m j k + 1 := by
        rw [waitIdx_succ, hn]
      rcases hstep (waitIdx f m j k + 1) with h2 | h2
      · obtain ⟨hv2, _, _⟩ :=
          low_waitValue f m (j (k + 1)) (waitIdx f m j k + 1) h2
            (hj (k + 1)).1 (hj (k + 1)).2
        unfold waitYield
        rw [hidx, hv, hv2]
        have hp : f * 2 ^ (waitIdx f m j k + 1) = f * 2 ^ waitIdx f m j k * 2 := by
          rw [pow_succ]; ring
        have h1 := one_le_factor_pow f hf (waitIdx f m j k)
        have hj0 := (hj (k + 1)).1
        have hj1 := (hj k).2
        rw [hp]
        linarith
      · have h3 : waitYield f m j (k + 1) = m := by
          apply hyield_high
          rw [hidx]
          exact h2
        have h4 : waitYield f m j k = f * 2 ^ waitIdx f m j k + j k := hv
        rw [h3, h4]
        exact le_of_lt hlt
    · have h1 := hyield_high k h
      have h2 : waitYield f m j (k + 1) = m := by
        apply hyield_high
        rw [waitIdx_succ]
        exact high_waitNext f m (j k) _ hf h
      rw [h1, h2]
  · refine ⟨⌈m⌉.toNat, fun k hk => ?_⟩
    rcases hstep (waitIdx f m j k) with h | h
    · exfalso
      have hidx := waitIdx_eq_of_low f m j hf hj hstep k h
      rw [hidx] at h
      have hNm : m ≤ ((⌈m⌉.toNat : ℕ) : ℚ) := by
        have h1 := Int.le_ceil m
        have h2 : ((⌈m⌉ : ℤ) : ℚ) ≤ ((⌈m⌉.toNat : ℤ) : ℚ) := by
          exact_mod_cast Int.self_le_toNat ⌈m⌉
        have h3 : ((⌈m⌉.toNat : ℤ) : ℚ) = ((⌈m⌉.toNat : ℕ) : ℚ) := by
          push_cast
          rfl
        linarith [h1, h2, h3.le, h3.ge]
      have hkm : m ≤ (k : ℚ) :=
        le_trans hNm (by exact_mod_cast hk)
      have := two_pow_big f m hf k hkm
      linarith
    · exact hyield_high k h

/-- C4 witness: the amended theorem applied at the deployed normal-pacing
parameters, factor 7 and cap 90, with zero jitter. -/
theorem wait_sequence_monotone_capped_witness :
    (∀ k, waitYield 7 90 (fun _ => 0) k ≤ waitYield 7 90 (fun _ => 0) (k + 1))
    ∧ (∀ k, waitYield 7 90 (fun _ => 0) k ≤ 90)
    ∧ (∃ N : ℕ, ∀ k, N ≤ k → waitYield 7 90 (fun _ => 0) k = 90) := by
  refine wait_sequence_monotone_capped 7 90 (fun _ => 0) (by norm_num)
    (by norm_num) (fun k => ⟨le_refl 0, by norm_num⟩) ?_
  intro n
  rcases Nat.lt_or_ge n 4 with h | h
  · interval_cases n <;> norm_num
  · right
    have hsplit : (2 : ℚ) ^ n = 2 ^ 4 * 2 ^ (n - 4) := by
      rw [← pow_add]
      congr 1
      omega
    have h2 : (1 : ℚ) ≤ 2 ^ (n - 4) := one_le_pow₀ (by norm_num)
    nlinarith [hsplit]

/-- The jitter stream witnessing that the unrestricted claim fails: a
large jitter on the first call, zero afterwards. -/
def jBoundary : ℕ → ℚ := fun k => if k = 0 then 9 / 10 else 0

/-- C4 counterexample: at factor 1 and cap 3/2 (a pair satisfying the
claim's hypotheses `f ≥ 1` and `m ≥ f`) with jitters drawn from `[0,1)`,
the second yielded wait is strictly smaller than the first, so the claimed
unrestricted monotonicity is false: after yielding the cap, a smaller
jitter re-enters the growth branch below the cap. -/
theorem wait_sequence_not_monotone_example :
    (1 : ℚ) ≤ 1 ∧ (1 : ℚ) ≤ 3 / 2
    ∧ (∀ k, 0 ≤ jBoundary k ∧ jBoundary k < 1)
    ∧ waitYield 1 (3 / 2) jBoundary 1 < waitYield 1 (3 / 2) jBoundary 0 := by
  refine ⟨le_refl 1, by norm_num, fun k => ?_, ?_⟩
  · unfold jBoundary
    split <;> norm_num
  · norm_num [waitYield, waitValue, waitIdx, waitNext, jBoundary]


/-- What one HTTP response to `session.get` in `_get_html` looks like to
the retry loop (client.py:123-140): a non-ok status code, a body carrying
the rate-limit marker ("The maximum number of stats requests has been
reached."), or a usable body (identified here by a number). -/
inductive FetchResponse where
  | notOk
  | limitHit
  | ok (html : ℕ)
deriving DecidableEq, Repr

/-- The observable outcome of one `_get_html` call: the returned value
(`None` encoded as `none`), the number of requests issued, the normal
pacing sleeps and the limit-recovery sleeps performed (in seconds, in
order), the final exponent states of the two local wait generators, and
the clock and `_last_req` at exit. -/
structure GoResult where
  out : Option ℕ
  reqs : ℕ
  normalSleeps : List ℚ
  limitSleeps : List ℚ
  nFinal : ℕ
  lFinal : ℕ
  now : ℚ
  lastReq : ℚ
deriving DecidableEq, Repr

/-- The retry loop of `_get_html` (client.py:107-141, identically
scrape.py:63-103), one recursion step per remaining iteration of
`for i in range(max_retries)`.  `resp k` is the response to the `k`-th
request of this call, `jn` / `jl` the jitter streams consumed by the
normal and limit wait generators, `i` the loop counter, `nIdx` / `lIdx`
the generators' exponent states, `lCalls` the number of `next()` calls
made so far on the limit generator, `now` the clock and `lastReq` the
stored `_last_req`.  Each iteration draws the next normal wait, sleeps the
remainder if less than that wait has elapsed since the last request
(`pendulum` second differences truncate to integers, modelled by the
floor), issues the request (setting `_last_req`), and then: breaks with
`None` on a non-ok status, sleeps the next limit wait and continues on the
rate-limit marker, or breaks with the body. -/
def getHtmlGo (resp : ℕ → FetchResponse) (jn jl : ℕ → ℚ) :
    ℕ → ℕ → ℕ → ℕ → ℕ → ℚ → ℚ → GoResult
  | 0, _, nIdx, lIdx, _, now, lastReq =>
      ⟨none, 0, [], [], nIdx, lIdx, now, lastReq⟩
  | r + 1, i, nIdx, lIdx, lCalls, now, lastReq =>
      let since : ℚ := ((⌊now - lastReq⌋ : ℤ) : ℚ)
      let w := waitValue 7 90 (jn i) nIdx
      let nIdx2 := waitNext 7 90 (jn i) nIdx
      let sleeps : List ℚ := if since < w then [w - since] else []
      let now1 := if since < w then now + (w - since) else now
      match resp i with
      | .notOk => ⟨none, 1, sleeps, [], nIdx2, lIdx, now1, now1⟩
      | .ok h => ⟨some h, 1, sleeps, [], nIdx2, lIdx, now1, now1⟩
      | .limitHit =>
          let wl := waitValue 90 300 (jl lCalls) lIdx
          let lIdx2 := waitNext 90 300 (jl lCalls) lIdx
          let rest := getHtmlGo resp jn jl r (i + 1) nIdx2 lIdx2 (lCalls + 1)
            (now1 + wl) now1
          ⟨rest.out, rest.reqs + 1, sleeps ++ rest.normalSleeps,
            wl :: rest.limitSleeps, rest.nFinal, rest.lFinal, rest.now,
            rest.lastReq⟩

/-- `SaltybetClient._get_html` (client.py:107-141): both wait generators
are constructed afresh at the top of every call (client.py:109-110), so
the loop starts with both exponent states at 0; only `_last_req` (and the
semaphore) persist on the client across calls. -/
def getHtml (resp : ℕ → FetchResponse) (jn jl : ℕ → ℚ) (maxRetries : ℕ)
    (now lastReq : ℚ) : GoResult :=
  getHtmlGo resp jn jl maxRetries 0 0 0 0 now lastReq

lemma getHtmlGo_limit_all (resp : ℕ → FetchResponse) (jn jl : ℕ → ℚ) :
    ∀ (r i lCalls nIdx : ℕ) (now lastReq : ℚ),
      (∀ k, k < r → resp (i + k) = .limitHit) →
      (getHtmlGo resp jn jl r i nIdx (waitIdx 90 300 jl lCalls) lCalls now
          lastReq).out = none
      ∧ (getHtmlGo resp jn jl r i nIdx (waitIdx 90 300 jl lCalls) lCalls now
          lastReq).reqs = r
      ∧ (getHtmlGo resp jn jl r i nIdx (waitIdx 90 300 jl lCalls) lCalls now
          lastReq).limitSleeps
        = (List.range r).map fun k => waitYield 90 300 jl (lCalls + k) := by
  intro r
  induction r with
  | zero =>
      intro i lCalls nIdx now lastReq _
      exact ⟨rfl, rfl, rfl⟩
  | succ r ih =>
      intro i lCalls nIdx now lastReq h
      have h0 : resp i = .limitHit := by
        have := h 0 (Nat.succ_pos r)
        simpa using this
      have hshift : ∀ k, k < r → resp (i + 1 + k) = .limitHit := by
        intro k hk
        have := h (k + 1) (by omega)
        rw [← this]
        congr 1
        omega
      have hnext : waitNext 90 300 (jl lCalls) (waitIdx 90 300 jl lCalls)
          = waitIdx 90 300 jl (lCalls + 1) := rfl
      have hwl : waitValue 90 300 (jl lCalls) (waitIdx 90 300 jl lCalls)
          = waitYield 90 300 jl lCalls := rfl
      have ih' := ih (i + 1) (lCalls + 1) (waitNext 7 90 (jn i) nIdx)
        ((if ((⌊now - lastReq⌋ : ℤ) : ℚ) < waitValue 7 90 (jn i) nIdx then
            now + (waitValue 7 90 (jn i) nIdx - ((⌊now - lastReq⌋ : ℤ) : ℚ))
          else now)
          + waitValue 90 300 (jl lCalls) (waitIdx 90 300 jl lCalls))
        (if ((⌊now - lastReq⌋ : ℤ) : ℚ) < waitValue 7 90 (jn i) nIdx then
            now + (waitValue 7 90 (jn i) nIdx - ((⌊now - lastReq⌋ : ℤ) : ℚ))
          else now)
        hshift
      simp only [getHtmlGo, h0]
      rw [hnext]
      refine ⟨ih'.1, ?_, ?_⟩
      · rw [ih'.2.1]
      · rw [ih'.2.2, List.range_succ_eq_map, List.map_cons, List.map_map]
        congr 1
        apply List.map_congr_left
        intro a _
        simp only [Function.comp]
        congr 1
        omega

/-- C2: a `_get_html` call with the default retry budget `max_retries =
10` whose requests all come back with the rate-limit marker returns the
"unavailable" result `None` after exactly 10 requests (no exception
channel exists in the loop: every path returns), and after every
rate-limited attempt the caller sleeps the next duration drawn from the
separate limit sequence with factor 90 s capped at 300 s. -/
theorem fetch_ten_limit_hits_soft_miss (resp : ℕ → FetchResponse)
    (jn jl : ℕ → ℚ) (now lastReq : ℚ)
    (h : ∀ k, k < 10 → resp k = .limitHit) :
    (getHtml resp jn jl 10 now lastReq).out = none
    ∧ (getHtml resp jn jl 10 now lastReq).reqs = 10
    ∧ (getHtml resp jn jl 10 now lastReq).limitSleeps
      = (List.range 10).map fun k => waitYield 90 300 jl k := by
  have key := getHtmlGo_limit_all resp jn jl 10 0 0 0 now lastReq
    (by intro k hk; simpa using h k hk)
  refine ⟨key.1, key.2.1, ?_⟩
  rw [show getHtml resp jn jl 10 now lastReq
      = getHtmlGo resp jn jl 10 0 0 (waitIdx 90 300 jl 0) 0 now lastReq from rfl,
    key.2.2]
  simp

/-- C2 witness: the theorem applied to ten straight rate-limit hits with
zero jitter from time 0. -/
theorem fetch_ten_limit_hits_soft_miss_witness :
    (getHtml (fun _ => .limitHit) (fun _ => 0) (fun _ => 0) 10 0 0).out = none
    ∧ (getHtml (fun _ => .limitHit) (fun _ => 0) (fun _ => 0) 10 0 0).reqs = 10
    ∧ (getHtml (fun _ => .limitHit) (fun _ => 0) (fun _ => 0) 10 0 0).limitSleeps
      = (List.range 10).map fun k => waitYield 90 300 (fun _ => 0) k :=
  fetch_ten_limit_hits_soft_miss (fun _ => .limitHit) (fun _ => 0) (fun _ => 0)
    0 0 (fun k _ => rfl)

lemma getHtmlGo_reqs_pos (resp : ℕ → FetchResponse) (jn jl : ℕ → ℚ)
    (r i nIdx lIdx lCalls : ℕ) (now lastReq : ℚ) (hr : 0 < r) :
    1 ≤ (getHtmlGo resp jn jl r i nIdx lIdx lCalls now lastReq).reqs := by
  cases r with
  | zero => omega
  | succ r =>
      cases h : resp i <;> simp [getHtmlGo, h]

/-- C9: a non-ok HTTP response terminates the retry loop at once: with a
non-ok response to the first request, `_get_html` returns `None` having
issued exactly one request, regardless of the remaining retry budget; by
contrast a rate-limit-marker response to the first request is retried, so
at least two requests are issued when budget remains. -/
theorem fetch_not_ok_terminates (resp resp2 : ℕ → FetchResponse)
    (jn jl : ℕ → ℚ) (r : ℕ) (now lastReq : ℚ) (hr : 2 ≤ r)
    (h1 : resp 0 = .notOk) (h2 : resp2 0 = .limitHit) :
    (getHtml resp jn jl r now lastReq).out = none
    ∧ (getHtml resp jn jl r now lastReq).reqs = 1
    ∧ 2 ≤ (getHtml resp2 jn jl r now lastReq).reqs := by
  obtain ⟨r2, rfl⟩ : ∃ r2, r = r2 + 1 := ⟨r - 1, by omega⟩
  refine ⟨?_, ?_, ?_⟩
  · simp [getHtml, getHtmlGo, h1]
  · simp [getHtml, getHtmlGo, h1]
  · show 2 ≤ (getHtmlGo resp2 jn jl (r2 + 1) 0 0 0 0 now lastReq).reqs
    simp only [getHtmlGo, h2]
    have hpos := getHtmlGo_reqs_pos resp2 jn jl r2 (0 + 1)
      (waitNext 7 90 (jn 0) 0)
      (waitNext 90 300 (jl 0) 0) (0 + 1)
      ((if ((⌊now - lastReq⌋ : ℤ) : ℚ) < waitValue 7 90 (jn 0) 0 then
          now + (waitValue 7 90 (jn 0) 0 - ((⌊now - lastReq⌋ : ℤ) : ℚ))
        else now) + waitValue 90 300 (jl 0) 0)
      (if ((⌊now - lastReq⌋ : ℤ) : ℚ) < waitValue 7 90 (jn 0) 0 then
          now + (waitValue 7 90 (jn 0) 0 - ((⌊now - lastReq⌋ : ℤ) : ℚ))
        else now)
      (by omega)
    omega

/-- C9 witness: the theorem applied with budget 2 and zero jitter from
time 0. -/
theorem fetch_not_ok_terminates_witness :
    (getHtml (fun _ => .notOk) (fun _ => 0) (fun _ => 0) 2 0 0).out = none
    ∧ (getHtml (fun _ => .notOk) (fun _ => 0) (fun _ => 0) 2 0 0).reqs = 1
    ∧ 2 ≤ (getHtml (fun _ => .limitHit) (fun _ => 0) (fun _ => 0) 2 0 0).reqs :=
  fetch_not_ok_terminates (fun _ => .notOk) (fun _ => .limitHit)
    (fun _ => 0) (fun _ => 0) 2 0 0 (le_refl 2) rfl rfl


lemma le_waitNext (f m jv : ℚ) (n : ℕ) : n ≤ waitNext f m jv n := by
  unfold waitNext
  split <;> omega

lemma getHtmlGo_idx_mono (resp : ℕ → FetchResponse) (jn jl : ℕ → ℚ) :
    ∀ (r i nIdx lIdx lCalls : ℕ) (now lastReq : ℚ),
      nIdx ≤ (getHtmlGo resp jn jl r i nIdx lIdx lCalls now lastReq).nFinal
      ∧ lIdx ≤ (getHtmlGo resp jn jl r i nIdx lIdx lCalls now lastReq).lFinal := by
  intro r
  induction r with
  | zero =>
      intro i nIdx lIdx lCalls now lastReq
      exact ⟨le_refl nIdx, le_refl lIdx⟩
  | succ r ih =>
      intro i nIdx lIdx lCalls now lastReq
      cases h : resp i with
      | notOk =>
          simp only [getHtmlGo, h]
          exact ⟨le_waitNext 7 90 (jn i) nIdx, le_refl lIdx⟩
      | ok v =>
          simp only [getHtmlGo, h]
          exact ⟨le_waitNext 7 90 (jn i) nIdx, le_refl lIdx⟩
      | limitHit =>
          simp only [getHtmlGo, h]
          exact ⟨le_trans (le_waitNext 7 90 (jn i) nIdx)
              (ih _ _ _ _ _ _).1,
            le_trans (le_waitNext 90 300 (jl lCalls) lIdx)
              (ih _ _ _ _ _ _).2⟩

/-- C3 (amended): the two backoff sequences are local to each `_get_html`
call, not process-lived: every call constructs both wait generators afresh
so both exponent positions start at 0 (first conjunct, by construction of
the call from the loop), and within a single call the positions are
monotonically non-decreasing across retries (remaining conjuncts).  Only
`_last_req` (and the semaphore) persist on the client between calls. -/
theorem backoff_indices_per_call (resp : ℕ → FetchResponse)
    (jn jl : ℕ → ℚ) (r i nIdx lIdx lCalls : ℕ) (now lastReq : ℚ) :
    getHtml resp jn jl r now lastReq
      = getHtmlGo resp jn jl r 0 0 0 0 now lastReq
    ∧ nIdx ≤ (getHtmlGo resp jn jl r i nIdx lIdx lCalls now lastReq).nFinal
    ∧ lIdx ≤ (getHtmlGo resp jn jl r i nIdx lIdx lCalls now lastReq).lFinal :=
  ⟨rfl, (getHtmlGo_idx_mono resp jn jl r i nIdx lIdx lCalls now lastReq).1,
    (getHtmlGo_idx_mono resp jn jl r i nIdx lIdx lCalls now lastReq).2⟩

/-- Zero jitter streams, for concrete executions. -/
def jz : ℕ → ℚ := fun _ => 0

/-- Responses for a first concrete fetch: one rate-limit hit, then a
usable body. -/
def respC3 : ℕ → FetchResponse := fun k => if k = 0 then .limitHit else .ok 42

/-- Responses for a second concrete fetch: immediately usable. -/
def respOk : ℕ → FetchResponse := fun _ => .ok 7

/-- Modelled from the spec: a `_get_html` whose backoff sequence positions
persist across calls, resuming from the positions `nStart` / `lStart`
reached by the previous call, per the spec's words "`normalSequenceIndex`,
`limitSequenceIndex` (both monotonically non-decreasing integers reset
only at process start)".  No such code exists in `src/`; this definition
exists only to be compared with `getHtml`. -/
def getHtmlPersistent (resp : ℕ → FetchResponse) (jn jl : ℕ → ℚ)
    (maxRetries nStart lStart : ℕ) (now lastReq : ℚ) : GoResult :=
  getHtmlGo resp jn jl maxRetries 0 nStart lStart 0 now lastReq

/-- C3 counterexample: a first fetch (one rate-limit hit, then success,
zero jitter, started at time 0 with `_last_req = 0`) ends with normal
position 2 and limit position 1 at time 97.  The immediately following
fetch as the code performs it sleeps 7 s before its first request (normal
position restarted at 0), whereas resuming from the reached positions as
the claim demands would sleep 28 s, so the claimed persistence of the
backoff position across consecutive fetch calls is false. -/
theorem backoff_reset_between_calls_example :
    (getHtml respC3 jz jz 10 0 0).nFinal = 2
    ∧ (getHtml respC3 jz jz 10 0 0).lFinal = 1
    ∧ (getHtml respC3 jz jz 10 0 0).now = 97
    ∧ (getHtml respC3 jz jz 10 0 0).lastReq = 97
    ∧ (getHtml respOk jz jz 10 97 97).normalSleeps = [7]
    ∧ (getHtmlPersistent respOk jz jz 10 2 1 97 97).normalSleeps = [28]
    ∧ (getHtml respOk jz jz 10 97 97).normalSleeps
      ≠ (getHtmlPersistent respOk jz jz 10 2 1 97 97).normalSleeps := by
  have h5 : (getHtml respOk jz jz 10 97 97).normalSleeps = [7] := by
    norm_num [getHtml, getHtmlGo, waitValue, waitNext, jz, respOk]
  have h6 : (getHtmlPersistent respOk jz jz 10 2 1 97 97).normalSleeps
      = [28] := by
    norm_num [getHtmlPersistent, getHtmlGo, waitValue, waitNext, jz, respOk]
  refine ⟨?_, ?_, ?_, ?_, h5, h6, ?_⟩
  · norm_num [getHtml, getHtmlGo, waitValue, waitNext, jz, respC3]
  · norm_num [getHtml, getHtmlGo, waitValue, waitNext, jz, respC3]
  · norm_num [getHtml, getHtmlGo, waitValue, waitNext, jz, respC3]
  · norm_num [getHtml, getHtmlGo, waitValue, waitNext, jz, respC3]
  · rw [h5, h6]
    norm_num

/-- `asyncio.gather` over already-created coroutines, without
`return_exceptions` (client.py:803-826): every coroutine in the batch is
started; if all complete normally the await completes normally, otherwise
the await re-raises a failing coroutine's error (determinized here as the
first error in argument order). -/
def gatherE {ε : Type} : List (Except ε Unit) → Except ε Unit
  | [] => .ok ()
  | .ok _ :: rest => gatherE rest
  | .error e :: _ => .error e

/-- The generic-phase invocations of `_trigger_betting_change`
(client.py:803-808). -/
def genericCalls {α : Type} (t : Triggers α) (cs : ClientState)
    (st : MatchStatus) : List (Call α) :=
  t.onBettingChange.map fun f =>
    ⟨f, st, cs.redName, cs.redBets, cs.blueName, cs.blueBets⟩

/-- The specific-phase invocations of `_trigger_betting_change`
(client.py:809-826). -/
def specificCalls {α : Type} (t : Triggers α) (cs : ClientState)
    (st : MatchStatus) : List (Call α) :=
  match statusSpecific st with
  | .openL => t.onBettingOpen.map fun f =>
      ⟨f, st, cs.redName, 0, cs.blueName, 0⟩
  | .lockedL => t.onBettingLocked.map fun f =>
      ⟨f, st, cs.redName, cs.redBets, cs.blueName, cs.blueBets⟩
  | .payoutL => t.onBettingPayout.map fun f =>
      ⟨f, st, cs.redName, cs.redBets, cs.blueName, cs.blueBets⟩
  | .noList => []

/-- `SaltybetClient._trigger_betting_change` (client.py:802-826) with
handler outcomes: `res` gives each handler's result.  The first `await
asyncio.gather` starts every generic handler; if one of them raises, the
await re-raises and the specific phase never runs — there is no
`try`/`except` anywhere in this method.  Returns the invocations started
and the outcome of the dispatch call. -/
def triggerBettingChangeE {α ε : Type} (t : Triggers α) (cs : ClientState)
    (res : α → Except ε Unit) (st : MatchStatus) :
    List (Call α) × Except ε Unit :=
  match gatherE ((genericCalls t cs st).map fun c => res c.handler) with
  | .error e => (genericCalls t cs st, .error e)
  | .ok _ => (genericCalls t cs st ++ specificCalls t cs st,
      gatherE ((specificCalls t cs st).map fun c => res c.handler))

lemma gatherE_ok_iff {ε : Type} (l : List (Except ε Unit)) :
    gatherE l = .ok () ↔ ∀ x ∈ l, x = .ok () := by
  induction l with
  | nil => simp [gatherE]
  | cons x rest ih =>
      cases x with
      | ok u =>
          cases u
          simp [gatherE, ih]
      | error e =>
          simp only [gatherE]
          constructor
          · intro h
            exact absurd h (by simp)
          · intro h
            have := h (.error e) (List.mem_cons_self _ _)
            simp at this

/-- Handlers for the C6 counterexample: handler 0 raises, the rest
complete normally. -/
def resC6 : ℕ → Except String Unit := fun n =>
  if n = 0 then .error "boom" else .ok ()

/-- Registries for the C6 counterexample: generic status-change handlers
0 and 1, open-specific handler 2. -/
def tC6 : Triggers ℕ := ⟨[0, 1], [2], [], [], [], [], [], []⟩

/-- C6 counterexample: when generic handler 0 raises during a dispatch to
Open, the error propagates out of the dispatch call (the dispatch outcome
is the error, not success) and the open-specific handler 2 is never
invoked — the error is not caught at the dispatch boundary and sibling
handlers of the same dispatch do not all run. -/
theorem handler_error_propagates_example :
    (triggerBettingChangeE tC6 initState resC6 .OPEN).2 = .error "boom"
    ∧ ((triggerBettingChangeE tC6 initState resC6 .OPEN).1.map Call.handler
        = [0, 1])
    ∧ (2 : ℕ) ∉ ((triggerBettingChangeE tC6 initState resC6 .OPEN).1.map
        Call.handler) := by
  refine ⟨rfl, rfl, by decide⟩

/-- C6 (amended): no handler error is caught at the dispatch boundary of
`_trigger_betting_change`.  All generic handlers of a dispatch are always
started (they are a prefix of the started invocations); the dispatch call
completes normally iff every started handler completed normally, the
first error otherwise propagating out of the dispatch call; and when a
generic-phase handler errors, the specific-phase handlers are not started
at all. -/
theorem dispatch_error_semantics {α ε : Type} (t : Triggers α)
    (cs : ClientState) (res : α → Except ε Unit) (st : MatchStatus) :
    ((triggerBettingChangeE t cs res st).1.map Call.handler).take
        t.onBettingChange.length = t.onBettingChange
    ∧ ((triggerBettingChangeE t cs res st).2 = .ok ()
        ↔ ∀ c ∈ (triggerBettingChangeE t cs res st).1,
            res c.handler = .ok ())
    ∧ (gatherE (t.onBettingChange.map res) = .ok ()
        ∨ (triggerBettingChangeE t cs res st).1.map Call.handler
            = t.onBettingChange) := by
  have hgen : (genericCalls t cs st).map Call.handler = t.onBettingChange :=
    map_handler_mk t.onBettingChange st cs.redName cs.redBets cs.blueName
      cs.blueBets
  have hgenres : (genericCalls t cs st).map (fun c => res c.handler)
      = t.onBettingChange.map res := by
    unfold genericCalls
    rw [List.map_map]
    apply List.map_congr_left
    intro a _
    rfl
  cases hg : gatherE ((genericCalls t cs st).map fun c => res c.handler) with
  | error e =>
      have hred : triggerBettingChangeE t cs res st
          = (genericCalls t cs st, .error e) := by
        unfold triggerBettingChangeE
        rw [hg]
      refine ⟨?_, ?_, ?_⟩
      · rw [hred]
        show ((genericCalls t cs st).map Call.handler).take
          t.onBettingChange.length = t.onBettingChange
        rw [hgen, List.take_length]
      · rw [hred]
        constructor
        · intro h
          exact absurd h (by simp)
        · intro hall
          exfalso
          have hok : gatherE ((genericCalls t cs st).map fun c =>
              res c.handler) = .ok () := by
            rw [gatherE_ok_iff]
            intro x hx
            obtain ⟨c, hc, rfl⟩ := List.mem_map.mp hx
            exact hall c hc
          rw [hg] at hok
          exact absurd hok (by simp)
      · right
        rw [hred]
        exact hgen
  | ok u =>
      cases u
      have hred : triggerBettingChangeE t cs res st
          = (genericCalls t cs st ++ specificCalls t cs st,
             gatherE ((specificCalls t cs st).map fun c => res c.handler)) := by
        unfold triggerBettingChangeE
        rw [hg]
      have hgall := (gatherE_ok_iff _).mp hg
      refine ⟨?_, ?_, ?_⟩
      · rw [hred]
        show ((genericCalls t cs st ++ specificCalls t cs st).map
          Call.handler).take t.onBettingChange.length = t.onBettingChange
        rw [List.map_append, hgen, ← hgen, List.take_left, hgen]
      · rw [hred]
        show gatherE ((specificCalls t cs st).map fun c => res c.handler)
            = .ok () ↔ _
        rw [gatherE_ok_iff]
        constructor
        · intro hall c hc
          rcases List.mem_append.mp hc with h | h
          · exact hgall _ (List.mem_map_of_mem _ h)
          · exact hall _ (List.mem_map_of_mem _ h)
        · intro hall x hx
          obtain ⟨c, hc, rfl⟩ := List.mem_map.mp hx
          exact hall c (List.mem_append.mpr (Or.inr hc))
      · left
        rw [← hgenres]
        exact hg

end SaltybetAsyncio
